import Mathlib

/-!
Verification of the argument-classification, command-building and execution
logic of `ngpb4py` (`src/ngpb4py/apptainer.py`, class `ApptainerExecutor`).

The Python code is shallowly embedded: Python `str` values become Lean
`String`, Python dicts (which preserve insertion order and keep the original
position of a key on re-assignment) become ordered association lists with a
position-preserving `upsert`, and Python keyword-argument mappings become
ordered lists of name/value pairs.  External effects (filesystem, binary
discovery on PATH, the spawned subprocess) are modelled as explicit inputs.
-/

/-- A Python primitive value as passed in keyword arguments: `None`, a string,
an integer, or a boolean. -/
inductive PyVal where
  | none
  | str (s : String)
  | int (n : Int)
  | bool (b : Bool)
deriving DecidableEq, Repr

/-- Python `str()` on a primitive value: strings are unchanged, integers print
in decimal, booleans print as `True` / `False`, `None` prints as `None`. -/
def pyStr : PyVal → String
  | PyVal.none => "None"
  | PyVal.str s => s
  | PyVal.int n => toString n
  | PyVal.bool b => if b then "True" else "False"

/-- The expression `str(value) if value is not None else None` used by both
sorting functions (apptainer.py lines 340, 345, 390, 395). -/
def stringifyVal (v : PyVal) : Option String :=
  if v = PyVal.none then Option.none else some (pyStr v)

/-- Python `str.startswith`: the pattern is a prefix of the character
sequence. -/
def strStartsWith (s pat : String) : Bool :=
  pat.data.isPrefixOf s.data

/-- One pass of Python `str.replace` on character lists: scan left to right;
where the (non-empty) pattern matches, emit the replacement and skip the
match, otherwise keep one character and continue.  The `fuel` argument makes
the recursion structural; it is always called with `fuel = l.length`, which
suffices because every step consumes at least one character. -/
def pyReplaceFuel (pat rep : List Char) : Nat → List Char → List Char
  | 0, l => l
  | _ + 1, [] => []
  | fuel + 1, c :: rest =>
    if pat.isPrefixOf (c :: rest) then
      rep ++ pyReplaceFuel pat rep fuel (List.drop (pat.length - 1) rest)
    else
      c :: pyReplaceFuel pat rep fuel rest

/-- Python `str.replace(pat, rep)` for a non-empty pattern: every occurrence
of `pat` in `s`, scanning left to right without overlap, is replaced by
`rep`.  (Both uses in the source have the non-empty patterns
"apptainer_" and "ngpb_"; the empty-pattern case of Python is not needed and
is modelled as the identity.) -/
def strReplace (s pat rep : String) : String :=
  if pat.data = [] then s
  else String.mk (pyReplaceFuel pat.data rep.data s.data.length s.data)

/-- `ApptainerExecutor.APPTAINER_KNOWN_ARGS` (apptainer.py lines 28-112):
the allow-list of option names recognized for the Apptainer runtime.  The
Python object is a set; only membership is ever used, so a list is a faithful
model. -/
def APPTAINER_KNOWN_ARGS : List String :=
  ["build-config", "config", "debug", "help", "nocolor", "quiet", "silent",
   "verbose", "version",
   "add-caps", "allow-setuid", "app", "apply-cgroups", "bind", "blkio-weight",
   "blkio-weight-device", "boot", "cleanenv", "compat", "contain", "containall",
   "cpu-shares", "cpus", "cpuset-cpus", "cpuset-mems", "device",
   "device-cgroup-rule", "disable-cache", "dns", "docker-login", "drop-caps",
   "env", "env-file", "fakeroot", "fusemount", "home", "hostname", "ipc",
   "keep-privs", "memory", "memory-reservation", "memory-swap", "mount", "net",
   "network", "network-args", "no-eval", "no-home", "no-https", "no-init",
   "no-mount", "no-privs", "no-umask", "nv", "oci", "overlay", "passwd",
   "pem-path", "pid", "pids-limit", "pwd", "rocm", "scratch", "security",
   "shell", "sif-fuse", "tmp", "tmpfs", "underlay", "unsquash", "user",
   "userns", "uts", "vm", "vm-cpu", "vm-err", "vm-ip", "vm-ram", "workdir",
   "writable", "writable-tmpfs"]

/-- `ApptainerExecutor.NGPB_KNOWN_ARGS` (apptainer.py line 114): the
allow-list of option names recognized for the ngpb program. -/
def NGPB_KNOWN_ARGS : List String := ["prmfile", "pqrfile", "run_log"]

/-- An ordered mapping of keyword-argument names to Python values (the
`**kwargs` of the sorting functions, in insertion order). -/
abbrev Kwargs := List (String × PyVal)

/-- An ordered mapping of classified option names to optional string values
(a Python dict `dict[str, str | None]` in insertion order). -/
abbrev ArgsDict := List (String × Option String)

/-- Python dict assignment `d[k] = v`: if the key is present its value is
updated in place (the key keeps its original position), otherwise the pair is
appended at the end. -/
def upsert : ArgsDict → String → Option String → ArgsDict
  | [], k, v => [(k, v)]
  | (k', v') :: rest, k, v =>
    if k' = k then (k', v) :: rest else (k', v') :: upsert rest k v

/-- Python dict lookup `d.get(k)`: the value stored under `k`, if present. -/
def lookupD : ArgsDict → String → Option (Option String)
  | [], _ => Option.none
  | (k', v') :: rest, k => if k' = k then some v' else lookupD rest k

/-- The keys of a classified mapping, in insertion order. -/
def keysOf (d : ArgsDict) : List String := d.map Prod.fst

/-- One loop iteration of `sort_apptainer_kwargs` (apptainer.py lines
338-350): exact allow-list match is accepted as-is; otherwise a name starting
with "apptainer_" is cleaned with `str.replace("apptainer_", "")` and
accepted if the cleaned name is allow-listed, else recorded as unknown; any
other name is skipped (it might be an ngpb argument). -/
def apptainerStep (acc : ArgsDict × List String) (key : String) (value : PyVal) :
    ArgsDict × List String :=
  if APPTAINER_KNOWN_ARGS.contains key then
    (upsert acc.1 key (stringifyVal value), acc.2)
  else if strStartsWith key "apptainer_" then
    if APPTAINER_KNOWN_ARGS.contains (strReplace key "apptainer_" "") then
      (upsert acc.1 (strReplace key "apptainer_" "") (stringifyVal value), acc.2)
    else
      (acc.1, acc.2 ++ [key])
  else
    acc

/-- The loop of `sort_apptainer_kwargs` over the kwargs items, threading the
`(apptainer_args, unknown_args)` accumulators. -/
def sortAppAux : Kwargs → ArgsDict × List String → ArgsDict × List String
  | [], acc => acc
  | (key, value) :: rest, acc => sortAppAux rest (apptainerStep acc key value)

/-- `ApptainerExecutor.sort_apptainer_kwargs` (apptainer.py lines 321-352):
returns the mapping of recognized Apptainer arguments and the list of unknown
"apptainer_"-prefixed arguments. -/
def sort_apptainer_kwargs (kwargs : Kwargs) : ArgsDict × List String :=
  sortAppAux kwargs ([], [])

/-- One loop iteration of `sort_ngpb_kwargs` (apptainer.py lines 388-400):
exact ngpb allow-list match is accepted; otherwise a name starting with
"ngpb_" is cleaned with `str.replace("ngpb_", "")` and accepted if the
cleaned name is allow-listed, else recorded as unknown; otherwise a name that
is neither an Apptainer allow-list member nor "apptainer_"-prefixed is
recorded as unknown. -/
def ngpbStep (acc : ArgsDict × List String) (key : String) (value : PyVal) :
    ArgsDict × List String :=
  if NGPB_KNOWN_ARGS.contains key then
    (upsert acc.1 key (stringifyVal value), acc.2)
  else if strStartsWith key "ngpb_" then
    if NGPB_KNOWN_ARGS.contains (strReplace key "ngpb_" "") then
      (upsert acc.1 (strReplace key "ngpb_" "") (stringifyVal value), acc.2)
    else
      (acc.1, acc.2 ++ [key])
  else if !(APPTAINER_KNOWN_ARGS.contains key) && !(strStartsWith key "apptainer_") then
    (acc.1, acc.2 ++ [key])
  else
    acc

/-- The loop of `sort_ngpb_kwargs` over the kwargs items. -/
def sortNgpbAux : Kwargs → ArgsDict × List String → ArgsDict × List String
  | [], acc => acc
  | (key, value) :: rest, acc => sortNgpbAux rest (ngpbStep acc key value)

/-- `ApptainerExecutor.sort_ngpb_kwargs` (apptainer.py lines 371-402):
returns the mapping of recognized ngpb arguments and the list of unknown
arguments. -/
def sort_ngpb_kwargs (kwargs : Kwargs) : ArgsDict × List String :=
  sortNgpbAux kwargs ([], [])

/-- The per-instance state of an `ApptainerExecutor` as far as the classified
logic reads it.  Paths are abstract strings; `sif_abs` and `workdir_abs` stand
for `self.sif_path.absolute()` and `self.workdir.absolute()` (a filesystem
resolution the pure logic treats as opaque), while `sif_path` and `workdir`
are the stored `Path` values as the code prints them.  `apptainer_path` is
the two-state binary-resolution field: `Option.none` before resolution,
`some path` after (`self.apptainer_path`). -/
structure Executor where
  sif_path : String
  sif_abs : String
  n_proc : Nat
  workdir : String
  workdir_abs : String
  env : List (String × String)
  timeout : Option Nat
  log_copy_dir : Option String
  apptainer_path : Option String
deriving DecidableEq, Repr

/-- The two option-rendering loops of `build_command` (apptainer.py lines
435-439 and 451-455): each entry renders as a bare `--name` when its value is
`None` and as `--name` followed by the value token otherwise, in mapping
order. -/
def renderArgs : ArgsDict → List String
  | [] => []
  | (key, Option.none) :: rest => ("--" ++ key) :: renderArgs rest
  | (key, some value) :: rest => ("--" ++ key) :: value :: renderArgs rest

/-- The error message raised by `build_command` when the binary is not yet
resolved (apptainer.py lines 423-425). -/
def buildNoBinaryMsg : String :=
  "Apptainer path not found. Call validate_apptainer_availability() first."

/-- `ApptainerExecutor.build_command` (apptainer.py lines 404-457): fails if
`self.apptainer_path` is unset, otherwise assembles
`[binary, exec, --pwd, /App, --bind, <workdir-abs>:/App]`, the rendered
Apptainer options, `[<sif-abs>, mpirun, -np, <n_proc>, ngpb]`, and the
rendered ngpb options. -/
def build_command (st : Executor) (apptainer_args ngpb_args : ArgsDict) :
    Except String (List String) :=
  match st.apptainer_path with
  | Option.none => Except.error buildNoBinaryMsg
  | some bin =>
    Except.ok
      ([bin, "exec", "--pwd", "/App", "--bind", st.workdir_abs ++ ":/App"] ++
        renderArgs apptainer_args ++
        [st.sif_abs, "mpirun", "-np", toString st.n_proc, "ngpb"] ++
        renderArgs ngpb_args)

/-- The result of `subprocess.run` on normal completion (exit status and the
two captured streams). -/
structure CompletedProcess where
  returncode : Int
  stdout : String
  stderr : String
deriving DecidableEq, Repr

/-- The outcome of the external subprocess spawn inside `execute_command`
(apptainer.py line 542): normal completion with an exit status and captured
streams, a `subprocess.TimeoutExpired`, or some other OS-level exception
(rendered by its message). -/
inductive SpawnOutcome where
  | completed (returncode : Int) (stdout stderr : String)
  | timedOut
  | osError (msg : String)
deriving DecidableEq, Repr

/-- A diagnostic emission (logger warning/error) relevant to the claims.  The
full diagnostic text of the source interpolates live filesystem state
(`os.getcwd()`, permission bits), so diagnostics are modelled as tagged
events carrying the data the pure logic supplies. -/
inductive Diag where
  | unknownApptainerWarning (args : List String)
  | unknownArgsWarning (args : List String)
  | argWarningsLogWriteError
  | logWriteError (path : String)
deriving DecidableEq, Repr

/-- `ApptainerExecutor.setup_logging` with the default filename (apptainer.py
lines 270-293): the primary log path `workdir / "apptainer_execution.log"`
and, when a copy directory is configured, the copy path inside it.  `Path`
joining is modelled as string concatenation with "/". -/
def setup_logging (st : Executor) : String × Option String :=
  (st.workdir ++ "/apptainer_execution.log",
   st.log_copy_dir.map (fun d => d ++ "/apptainer_execution.log"))

/-- `ApptainerExecutor.validate_all_arguments` (apptainer.py lines 459-497),
which only emits diagnostics: a warning for unknown "apptainer_"-prefixed
names, and a warning (plus an append to `argument_warnings.log`, whose write
failure is caught and reported) for names unknown to both namespaces.
`argLogOk` is the outcome of the external file append. -/
def validate_all_arguments (kwargs : Kwargs) (argLogOk : Bool) : List Diag :=
  let unknown_apptainer := (sort_apptainer_kwargs kwargs).2
  let unknown_ngpb := (sort_ngpb_kwargs kwargs).2
  let d1 := if unknown_apptainer ≠ [] then
    [Diag.unknownApptainerWarning unknown_apptainer] else []
  let d2 := if unknown_ngpb ≠ [] then
    let truly_unknown := unknown_ngpb.filter
      (fun a => !(APPTAINER_KNOWN_ARGS.contains a) && !(strStartsWith a "apptainer_"))
    if truly_unknown ≠ [] then
      [Diag.unknownArgsWarning truly_unknown] ++
        (if argLogOk then [] else [Diag.argWarningsLogWriteError])
    else []
  else []
  d1 ++ d2

/-- The error message composed at apptainer.py lines 578-584 when the spawned
process exits non-zero: it embeds the exit status, the space-joined command,
both captured streams, and the primary log path. -/
def execFailedMsg (returncode : Int) (cmd : List String) (stderr stdout primary_log : String) :
    String :=
  "Apptainer execution failed with return code " ++ toString returncode ++
    ". Command: " ++ String.intercalate " " cmd ++
    ". STDERR: " ++ stderr ++
    ". STDOUT: " ++ stdout ++
    ". Check log file at: " ++ primary_log

/-- The timeout error message (apptainer.py lines 592-596).  The Python
f-string prints a `None` timeout as "None". -/
def timeoutMsg (timeout : Option Nat) (cmd : List String) : String :=
  "Apptainer execution timed out after " ++
    (match timeout with | Option.none => "None" | some t => toString t) ++
    " seconds. Command: " ++ String.intercalate " " cmd ++
    ". Consider increasing the timeout parameter."

/-- The wrapper error message of the blanket `except Exception` handler
(apptainer.py lines 601-606), where `e` renders as the caught exception's
message. -/
def unexpectedErrMsg (e : String) (cmd : List String) (st : Executor) : String :=
  "Unexpected error during Apptainer execution: " ++ e ++
    ". Command: " ++ String.intercalate " " cmd ++
    ". Working directory: " ++ st.workdir ++
    ". SIF file: " ++ st.sif_path

/-- The error message of `validate_apptainer_availability` when no binary can
be resolved (apptainer.py lines 227-232). -/
def apptainerUnavailableMsg : String :=
  "Apptainer not found in system PATH. Please ensure Apptainer is installed and available. " ++
    "You can install it using the ngpb4py-setup command or " ++
    "visit https://apptainer.org/docs/admin/main/installation.html"

/-- `ApptainerExecutor.execute_command` (apptainer.py lines 499-608).
External effects are explicit inputs: `spawn` is the subprocess outcome,
`primaryOk` / `copyOk` are the outcomes of the two execution-log writes
(their failures are caught at lines 563-565 and 572-574 and degraded to
diagnostics), `argLogOk` is the outcome of the argument-warnings append.
The binary search and the `--version` self-check of
`validate_apptainer_availability` are external subprocess calls; the model
takes the executor's resolved state as authoritative: an unresolved binary
fails with the unavailability error, a resolved one is assumed functional
(the self-check's own failure modes are outside the claims considered here).

A faithfully modelled subtlety: the `raise RuntimeError` for a non-zero exit
status (line 586) sits inside the `try` block, so it is caught by the blanket
`except Exception` handler (line 600) and re-raised wrapped in the
"Unexpected error during Apptainer execution" message, whose `{e}` is the
inner execution-failed message.  Returns the call's outcome paired with the
emitted diagnostics. -/
def execute_command (st : Executor) (kwargs : Kwargs) (spawn : SpawnOutcome)
    (primaryOk copyOk argLogOk : Bool) :
    Except String CompletedProcess × List Diag :=
  match st.apptainer_path with
  | Option.none => (Except.error apptainerUnavailableMsg, [])
  | some _ =>
    let warnDiags := validate_all_arguments kwargs argLogOk
    let apptainer_args := (sort_apptainer_kwargs kwargs).1
    let ngpb_args := (sort_ngpb_kwargs kwargs).1
    match build_command st apptainer_args ngpb_args with
    | Except.error e => (Except.error e, warnDiags)
    | Except.ok cmd =>
      let logs := setup_logging st
      match spawn with
      | SpawnOutcome.completed rc out err =>
        let d1 := if primaryOk then [] else [Diag.logWriteError logs.1]
        let d2 := match logs.2 with
          | some cl => if copyOk then [] else [Diag.logWriteError cl]
          | Option.none => []
        if rc ≠ 0 then
          (Except.error
            (unexpectedErrMsg (execFailedMsg rc cmd err out logs.1) cmd st),
           warnDiags ++ d1 ++ d2)
        else
          (Except.ok ⟨rc, out, err⟩, warnDiags ++ d1 ++ d2)
      | SpawnOutcome.timedOut =>
        (Except.error (timeoutMsg st.timeout cmd), warnDiags)
      | SpawnOutcome.osError e =>
        (Except.error (unexpectedErrMsg e cmd st), warnDiags)

/-- Statement abbreviation: the command vector `build_command` produces for a
resolved binary `bin` from the two sorted views of `kwargs`. -/
def builtCmd (st : Executor) (bin : String) (kwargs : Kwargs) : List String :=
  [bin, "exec", "--pwd", "/App", "--bind", st.workdir_abs ++ ":/App"] ++
    renderArgs (sort_apptainer_kwargs kwargs).1 ++
    [st.sif_abs, "mpirun", "-np", toString st.n_proc, "ngpb"] ++
    renderArgs (sort_ngpb_kwargs kwargs).1

/-- Statement abbreviation: the full error message `execute_command` raises
for a non-zero exit status — the execution-failed message wrapped by the
blanket exception handler. -/
def nonzeroExitMsg (st : Executor) (bin : String) (kwargs : Kwargs) (rc : Int)
    (out err : String) : String :=
  unexpectedErrMsg
    (execFailedMsg rc (builtCmd st bin kwargs) err out
      (st.workdir ++ "/apptainer_execution.log"))
    (builtCmd st bin kwargs) st

/-- A concrete executor state used by the witness theorems: binary resolved,
one process, no timeout, no copy directory. -/
def sampleExecutor : Executor :=
  { sif_path := "/images/ngpb.sif"
    sif_abs := "/images/ngpb.sif"
    n_proc := 1
    workdir := "/work"
    workdir_abs := "/work"
    env := []
    timeout := Option.none
    log_copy_dir := Option.none
    apptainer_path := some "/usr/bin/apptainer" }

/-- `piece` occurs as a contiguous substring of `whole`. -/
def embeddedIn (piece whole : String) : Prop :=
  ∃ x y, whole = x ++ (piece ++ y)

/-! ### Sanity checks mirroring the unit tests of tests/test_apptainer.py -/

theorem sanity_sort_apptainer_exact_and_unknown : sort_apptainer_kwargs
    [("bind", PyVal.str "/tmp:/tmp"), ("env", PyVal.str "VAR=value"),
     ("cleanenv", PyVal.bool true), ("invalid_arg", PyVal.str "test")] =
    ([("bind", some "/tmp:/tmp"), ("env", some "VAR=value"),
      ("cleanenv", some "True")], []) := by decide

theorem sanity_sort_apptainer_prefixed : sort_apptainer_kwargs
    [("apptainer_bind", PyVal.str "/tmp:/tmp"), ("apptainer_invalid", PyVal.str "test")] =
    ([("bind", some "/tmp:/tmp")], ["apptainer_invalid"]) := by decide

theorem sanity_sort_ngpb_prefixed : sort_ngpb_kwargs
    [("ngpb_prmfile", PyVal.str "config.prm"), ("ngpb_invalid", PyVal.str "test")] =
    ([("prmfile", some "config.prm")], ["ngpb_invalid"]) := by decide

theorem sanity_sort_ngpb_exact_and_unknown : sort_ngpb_kwargs
    [("prmfile", PyVal.str "config.prm"), ("pqrfile", PyVal.str "input.pqr"),
     ("invalid_ngpb", PyVal.str "test")] =
    ([("prmfile", some "config.prm"), ("pqrfile", some "input.pqr")],
     ["invalid_ngpb"]) := by decide

theorem sanity_strReplace_removes_every_occurrence :
    strReplace "apptainer_apptainer_bind" "apptainer_" "" = "bind" := by decide

theorem sanity_sort_apptainer_none_value : sort_apptainer_kwargs
    [("cleanenv", PyVal.none), ("bind", PyVal.str "/tmp:/tmp")] =
    ([("cleanenv", Option.none), ("bind", some "/tmp:/tmp")], []) := by decide

/-! ### Helper lemmas about the allow-lists -/

theorem contains_iff_memS {l : List String} {a : String} : l.contains a = true ↔ a ∈ l :=
  List.elem_iff

/-- No Apptainer allow-list entry starts with either literal prefix or occurs
in the ngpb allow-list. -/
theorem apptainer_args_flags :
    APPTAINER_KNOWN_ARGS.all (fun s =>
      !(strStartsWith s "apptainer_") && !(strStartsWith s "ngpb_") &&
        !(NGPB_KNOWN_ARGS.contains s)) = true := by decide

/-- No ngpb allow-list entry starts with either literal prefix or occurs in
the Apptainer allow-list. -/
theorem ngpb_args_flags :
    NGPB_KNOWN_ARGS.all (fun s =>
      !(strStartsWith s "ngpb_") && !(strStartsWith s "apptainer_") &&
        !(APPTAINER_KNOWN_ARGS.contains s)) = true := by decide

theorem apptainer_mem_facts {k : String} (h : APPTAINER_KNOWN_ARGS.contains k = true) :
    strStartsWith k "apptainer_" = false ∧ strStartsWith k "ngpb_" = false ∧
      NGPB_KNOWN_ARGS.contains k = false := by
  have hm : k ∈ APPTAINER_KNOWN_ARGS := contains_iff_memS.mp h
  have hall := List.all_eq_true.mp apptainer_args_flags k hm
  simp only [Bool.and_eq_true, Bool.not_eq_true'] at hall
  exact ⟨hall.1.1, hall.1.2, hall.2⟩

theorem ngpb_mem_facts {k : String} (h : NGPB_KNOWN_ARGS.contains k = true) :
    strStartsWith k "ngpb_" = false ∧ strStartsWith k "apptainer_" = false ∧
      APPTAINER_KNOWN_ARGS.contains k = false := by
  have hm : k ∈ NGPB_KNOWN_ARGS := contains_iff_memS.mp h
  have hall := List.all_eq_true.mp ngpb_args_flags k hm
  simp only [Bool.and_eq_true, Bool.not_eq_true'] at hall
  exact ⟨hall.1.1, hall.1.2, hall.2⟩

theorem apptainer_not_startsWith {k : String} (hsw : strStartsWith k "apptainer_" = true) :
    APPTAINER_KNOWN_ARGS.contains k = false := by
  cases hc : APPTAINER_KNOWN_ARGS.contains k with
  | false => rfl
  | true => exact absurd hsw (by simp [(apptainer_mem_facts hc).1])

theorem ngpb_not_startsWith {k : String} (hsw : strStartsWith k "ngpb_" = true) :
    NGPB_KNOWN_ARGS.contains k = false := by
  cases hc : NGPB_KNOWN_ARGS.contains k with
  | false => rfl
  | true => exact absurd hsw (by simp [(ngpb_mem_facts hc).1])

/-! ### Helper lemmas about dict upsert and lookup -/

theorem mem_keysOf_upsert {d : ArgsDict} {k : String} {v : Option String} {a : String} :
    a ∈ keysOf (upsert d k v) ↔ a ∈ keysOf d ∨ a = k := by
  induction d with
  | nil => simp [upsert, keysOf]
  | cons hd tl ih =>
    obtain ⟨k', v'⟩ := hd
    by_cases hk : k' = k
    · subst hk
      simp [upsert, keysOf]
      tauto
    · simp only [upsert, if_neg hk, keysOf, List.map_cons, List.mem_cons] at *
      tauto

theorem lookupD_upsert_self (d : ArgsDict) (k : String) (v : Option String) :
    lookupD (upsert d k v) k = some v := by
  induction d with
  | nil => simp [upsert, lookupD]
  | cons hd tl ih =>
    obtain ⟨k', v'⟩ := hd
    by_cases hk : k' = k
    · subst hk; simp [upsert, lookupD]
    · simp [upsert, lookupD, hk, ih]

theorem lookupD_upsert_ne (d : ArgsDict) (k : String) (v : Option String) {a : String}
    (h : a ≠ k) : lookupD (upsert d k v) a = lookupD d a := by
  have h' : k ≠ a := h.symm
  induction d with
  | nil => simp [upsert, lookupD, h']
  | cons hd tl ih =>
    obtain ⟨k', v'⟩ := hd
    by_cases hk : k' = k
    · subst hk
      simp [upsert, lookupD, h']
    · by_cases ha : k' = a <;> simp [upsert, lookupD, hk, ha, ih, h]

theorem lookupD_eq_none {d : ArgsDict} {a : String} (h : a ∉ keysOf d) :
    lookupD d a = Option.none := by
  induction d with
  | nil => simp [lookupD]
  | cons hd tl ih =>
    obtain ⟨k', v'⟩ := hd
    simp only [keysOf, List.map_cons, List.mem_cons] at h
    push_neg at h
    have h1 : k' ≠ a := h.1.symm
    simp [lookupD, h1, ih (by simpa [keysOf] using h.2)]

/-! ### Invariant lemmas for the sorting loops -/

theorem apptainerStep_fst_mem {acc : ArgsDict × List String} {key : String} {val : PyVal}
    {x : String} (h : x ∈ keysOf acc.1) : x ∈ keysOf (apptainerStep acc key val).1 := by
  unfold apptainerStep
  split
  · exact mem_keysOf_upsert.mpr (Or.inl h)
  · split
    · split
      · exact mem_keysOf_upsert.mpr (Or.inl h)
      · exact h
    · exact h

theorem apptainerStep_snd_mem {acc : ArgsDict × List String} {key : String} {val : PyVal}
    {u : String} (h : u ∈ acc.2) : u ∈ (apptainerStep acc key val).2 := by
  unfold apptainerStep
  split
  · exact h
  · split
    · split
      · exact h
      · exact List.mem_append_left _ h
    · exact h

theorem sortAppAux_fst_mono (l : Kwargs) :
    ∀ acc : ArgsDict × List String, ∀ x ∈ keysOf acc.1, x ∈ keysOf (sortAppAux l acc).1 := by
  induction l with
  | nil => intro acc x hx; simpa [sortAppAux] using hx
  | cons e tl ih =>
    intro acc x hx
    obtain ⟨key, val⟩ := e
    exact ih (apptainerStep acc key val) x (apptainerStep_fst_mem hx)

theorem sortAppAux_snd_mono (l : Kwargs) :
    ∀ acc : ArgsDict × List String, ∀ u ∈ acc.2, u ∈ (sortAppAux l acc).2 := by
  induction l with
  | nil => intro acc u hu; simpa [sortAppAux] using hu
  | cons e tl ih =>
    intro acc u hu
    obtain ⟨key, val⟩ := e
    exact ih (apptainerStep acc key val) u (apptainerStep_snd_mem hu)

theorem sortAppAux_keys_sub (l : Kwargs) :
    ∀ acc : ArgsDict × List String,
      (∀ x ∈ keysOf acc.1, APPTAINER_KNOWN_ARGS.contains x = true) →
      ∀ x ∈ keysOf (sortAppAux l acc).1, APPTAINER_KNOWN_ARGS.contains x = true := by
  induction l with
  | nil => intro acc hacc; simpa [sortAppAux] using hacc
  | cons e tl ih =>
    intro acc hacc
    obtain ⟨key, val⟩ := e
    refine ih (apptainerStep acc key val) ?_
    intro x hx
    unfold apptainerStep at hx
    split at hx
    · rcases mem_keysOf_upsert.mp hx with hm | rfl
      · exact hacc x hm
      · assumption
    · split at hx
      · split at hx
        · rcases mem_keysOf_upsert.mp hx with hm | rfl
          · exact hacc x hm
          · assumption
        · exact hacc x hx
      · exact hacc x hx

theorem ngpbStep_fst_mem {acc : ArgsDict × List String} {key : String} {val : PyVal}
    {x : String} (h : x ∈ keysOf acc.1) : x ∈ keysOf (ngpbStep acc key val).1 := by
  unfold ngpbStep
  split
  · exact mem_keysOf_upsert.mpr (Or.inl h)
  · split
    · split
      · exact mem_keysOf_upsert.mpr (Or.inl h)
      · exact h
    · split
      · exact h
      · exact h

theorem ngpbStep_snd_mem {acc : ArgsDict × List String} {key : String} {val : PyVal}
    {u : String} (h : u ∈ acc.2) : u ∈ (ngpbStep acc key val).2 := by
  unfold ngpbStep
  split
  · exact h
  · split
    · split
      · exact h
      · exact List.mem_append_left _ h
    · split
      · exact List.mem_append_left _ h
      · exact h

theorem sortNgpbAux_fst_mono (l : Kwargs) :
    ∀ acc : ArgsDict × List String, ∀ x ∈ keysOf acc.1, x ∈ keysOf (sortNgpbAux l acc).1 := by
  induction l with
  | nil => intro acc x hx; simpa [sortNgpbAux] using hx
  | cons e tl ih =>
    intro acc x hx
    obtain ⟨key, val⟩ := e
    exact ih (ngpbStep acc key val) x (ngpbStep_fst_mem hx)

theorem sortNgpbAux_snd_mono (l : Kwargs) :
    ∀ acc : ArgsDict × List String, ∀ u ∈ acc.2, u ∈ (sortNgpbAux l acc).2 := by
  induction l with
  | nil => intro acc u hu; simpa [sortNgpbAux] using hu
  | cons e tl ih =>
    intro acc u hu
    obtain ⟨key, val⟩ := e
    exact ih (ngpbStep acc key val) u (ngpbStep_snd_mem hu)

theorem sortNgpbAux_keys_sub (l : Kwargs) :
    ∀ acc : ArgsDict × List String,
      (∀ x ∈ keysOf acc.1, NGPB_KNOWN_ARGS.contains x = true) →
      ∀ x ∈ keysOf (sortNgpbAux l acc).1, NGPB_KNOWN_ARGS.contains x = true := by
  induction l with
  | nil => intro acc hacc; simpa [sortNgpbAux] using hacc
  | cons e tl ih =>
    intro acc hacc
    obtain ⟨key, val⟩ := e
    refine ih (ngpbStep acc key val) ?_
    intro x hx
    unfold ngpbStep at hx
    split at hx
    · rcases mem_keysOf_upsert.mp hx with hm | rfl
      · exact hacc x hm
      · assumption
    · split at hx
      · split at hx
        · rcases mem_keysOf_upsert.mp hx with hm | rfl
          · exact hacc x hm
          · assumption
        · exact hacc x hx
      · split at hx
        · exact hacc x hx
        · exact hacc x hx

/-- A kwargs entry whose name starts with "apptainer_" and whose cleaned name
is allow-listed ends up (under the cleaned name) among the keys of the
Apptainer output mapping. -/
theorem sortAppAux_accept (l : Kwargs) :
    ∀ acc : ArgsDict × List String, ∀ k v, (k, v) ∈ l →
      strStartsWith k "apptainer_" = true →
      APPTAINER_KNOWN_ARGS.contains (strReplace k "apptainer_" "") = true →
      strReplace k "apptainer_" "" ∈ keysOf (sortAppAux l acc).1 := by
  induction l with
  | nil => intro acc k v hmem; exact absurd hmem (List.not_mem_nil _)
  | cons e tl ih =>
    intro acc k v hmem hsw hcl
    obtain ⟨key, val⟩ := e
    rcases List.mem_cons.mp hmem with heq | htl
    · obtain ⟨rfl, rfl⟩ := Prod.mk.injEq .. ▸ heq
      have hck : APPTAINER_KNOWN_ARGS.contains k = false := apptainer_not_startsWith hsw
      show strReplace k "apptainer_" "" ∈ keysOf (sortAppAux tl (apptainerStep acc k v)).1
      refine sortAppAux_fst_mono tl _ _ ?_
      unfold apptainerStep
      rw [hck, hsw, hcl]
      simp only [Bool.false_eq_true, if_false, if_true]
      exact mem_keysOf_upsert.mpr (Or.inr rfl)
    · exact ih (apptainerStep acc key val) k v htl hsw hcl

/-- A kwargs entry whose name starts with "apptainer_" and whose cleaned name
is not allow-listed ends up (under its original name) in the Apptainer
unknown list. -/
theorem sortAppAux_reject (l : Kwargs) :
    ∀ acc : ArgsDict × List String, ∀ k v, (k, v) ∈ l →
      strStartsWith k "apptainer_" = true →
      APPTAINER_KNOWN_ARGS.contains (strReplace k "apptainer_" "") = false →
      k ∈ (sortAppAux l acc).2 := by
  induction l with
  | nil => intro acc k v hmem; exact absurd hmem (List.not_mem_nil _)
  | cons e tl ih =>
    intro acc k v hmem hsw hcl
    obtain ⟨key, val⟩ := e
    rcases List.mem_cons.mp hmem with heq | htl
    · obtain ⟨rfl, rfl⟩ := Prod.mk.injEq .. ▸ heq
      have hck : APPTAINER_KNOWN_ARGS.contains k = false := apptainer_not_startsWith hsw
      show k ∈ (sortAppAux tl (apptainerStep acc k v)).2
      refine sortAppAux_snd_mono tl _ _ ?_
      unfold apptainerStep
      rw [hck, hsw, hcl]
      simp only [Bool.false_eq_true, if_false, if_true]
      exact List.mem_append_right _ (List.mem_singleton.mpr rfl)
    · exact ih (apptainerStep acc key val) k v htl hsw hcl

/-- A kwargs entry whose name starts with "ngpb_" and whose cleaned name is
allow-listed ends up (under the cleaned name) among the keys of the ngpb
output mapping. -/
theorem sortNgpbAux_accept (l : Kwargs) :
    ∀ acc : ArgsDict × List String, ∀ k v, (k, v) ∈ l →
      strStartsWith k "ngpb_" = true →
      NGPB_KNOWN_ARGS.contains (strReplace k "ngpb_" "") = true →
      strReplace k "ngpb_" "" ∈ keysOf (sortNgpbAux l acc).1 := by
  induction l with
  | nil => intro acc k v hmem; exact absurd hmem (List.not_mem_nil _)
  | cons e tl ih =>
    intro acc k v hmem hsw hcl
    obtain ⟨key, val⟩ := e
    rcases List.mem_cons.mp hmem with heq | htl
    · obtain ⟨rfl, rfl⟩ := Prod.mk.injEq .. ▸ heq
      have hck : NGPB_KNOWN_ARGS.contains k = false := ngpb_not_startsWith hsw
      show strReplace k "ngpb_" "" ∈ keysOf (sortNgpbAux tl (ngpbStep acc k v)).1
      refine sortNgpbAux_fst_mono tl _ _ ?_
      unfold ngpbStep
      rw [hck, hsw, hcl]
      simp only [Bool.false_eq_true, if_false, if_true]
      exact mem_keysOf_upsert.mpr (Or.inr rfl)
    · exact ih (ngpbStep acc key val) k v htl hsw hcl

/-- A kwargs entry whose name starts with "ngpb_" and whose cleaned name is
not allow-listed ends up (under its original name) in the ngpb unknown
list. -/
theorem sortNgpbAux_reject (l : Kwargs) :
    ∀ acc : ArgsDict × List String, ∀ k v, (k, v) ∈ l →
      strStartsWith k "ngpb_" = true →
      NGPB_KNOWN_ARGS.contains (strReplace k "ngpb_" "") = false →
      k ∈ (sortNgpbAux l acc).2 := by
  induction l with
  | nil => intro acc k v hmem; exact absurd hmem (List.not_mem_nil _)
  | cons e tl ih =>
    intro acc k v hmem hsw hcl
    obtain ⟨key, val⟩ := e
    rcases List.mem_cons.mp hmem with heq | htl
    · obtain ⟨rfl, rfl⟩ := Prod.mk.injEq .. ▸ heq
      have hck : NGPB_KNOWN_ARGS.contains k = false := ngpb_not_startsWith hsw
      show k ∈ (sortNgpbAux tl (ngpbStep acc k v)).2
      refine sortNgpbAux_snd_mono tl _ _ ?_
      unfold ngpbStep
      rw [hck, hsw, hcl]
      simp only [Bool.false_eq_true, if_false, if_true]
      exact List.mem_append_right _ (List.mem_singleton.mpr rfl)
    · exact ih (ngpbStep acc key val) k v htl hsw hcl

/-- A kwargs entry whose name is itself on the Apptainer allow-list always
ends up among the keys of the Apptainer output mapping (the exact-match
branch upserts it, and upserted keys persist), regardless of any other
entries — aliases included. -/
theorem sortAppAux_exact_mem (l : Kwargs) :
    ∀ acc : ArgsDict × List String, ∀ k v, (k, v) ∈ l →
      APPTAINER_KNOWN_ARGS.contains k = true →
      k ∈ keysOf (sortAppAux l acc).1 := by
  induction l with
  | nil => intro acc k v hmem; exact absurd hmem (List.not_mem_nil _)
  | cons e tl ih =>
    intro acc k v hmem hk
    obtain ⟨key, val⟩ := e
    rcases List.mem_cons.mp hmem with heq | htl
    · obtain ⟨rfl, rfl⟩ := Prod.mk.injEq .. ▸ heq
      show k ∈ keysOf (sortAppAux tl (apptainerStep acc k v)).1
      refine sortAppAux_fst_mono tl _ _ ?_
      unfold apptainerStep
      rw [hk]
      simp only [if_true]
      exact mem_keysOf_upsert.mpr (Or.inr rfl)
    · exact ih (apptainerStep acc key val) k v htl hk

/-- A kwargs entry whose name is itself on the ngpb allow-list always ends up
among the keys of the ngpb output mapping, regardless of any other
entries. -/
theorem sortNgpbAux_exact_mem (l : Kwargs) :
    ∀ acc : ArgsDict × List String, ∀ k v, (k, v) ∈ l →
      NGPB_KNOWN_ARGS.contains k = true →
      k ∈ keysOf (sortNgpbAux l acc).1 := by
  induction l with
  | nil => intro acc k v hmem; exact absurd hmem (List.not_mem_nil _)
  | cons e tl ih =>
    intro acc k v hmem hk
    obtain ⟨key, val⟩ := e
    rcases List.mem_cons.mp hmem with heq | htl
    · obtain ⟨rfl, rfl⟩ := Prod.mk.injEq .. ▸ heq
      show k ∈ keysOf (sortNgpbAux tl (ngpbStep acc k v)).1
      refine sortNgpbAux_fst_mono tl _ _ ?_
      unfold ngpbStep
      rw [hk]
      simp only [if_true]
      exact mem_keysOf_upsert.mpr (Or.inr rfl)
    · exact ih (ngpbStep acc key val) k v htl hk

/-- A name on the Apptainer allow-list is never added to the ngpb unknown
list: every ngpb loop iteration leaves it out if it was out before. -/
theorem sortNgpbAux_skip_apptainer (l : Kwargs) :
    ∀ acc : ArgsDict × List String, ∀ k, APPTAINER_KNOWN_ARGS.contains k = true →
      k ∉ acc.2 → k ∉ (sortNgpbAux l acc).2 := by
  induction l with
  | nil => intro acc k _ hout; simpa [sortNgpbAux] using hout
  | cons e tl ih =>
    intro acc k hk hout
    obtain ⟨key, val⟩ := e
    refine ih (ngpbStep acc key val) k hk ?_
    unfold ngpbStep
    by_cases hkey : key = k
    · subst hkey
      rw [(apptainer_mem_facts hk).2.1, (apptainer_mem_facts hk).2.2, hk]
      simp only [Bool.false_eq_true, if_false, Bool.not_true, Bool.false_and]
      exact hout
    · have hne : k ∉ acc.2 ++ [key] := by
        intro hmem
        rcases List.mem_append.mp hmem with h1 | h2
        · exact hout h1
        · exact hkey (List.mem_singleton.mp h2).symm
      split
      · exact hout
      · split
        · split
          · exact hout
          · exact hne
        · split
          · exact hne
          · exact hout

/-- If no remaining kwargs entry has name `k` and none is an
"apptainer_"-prefixed alias cleaning to `k`, the Apptainer loop leaves the
value stored under `k` untouched. -/
theorem sortAppAux_lookup_frozen (l : Kwargs) :
    ∀ acc : ArgsDict × List String, ∀ k : String,
      (∀ p ∈ l, (p : String × PyVal).1 ≠ k) →
      (∀ p ∈ l, strStartsWith (p : String × PyVal).1 "apptainer_" = true →
        strReplace p.1 "apptainer_" "" ≠ k) →
      lookupD (sortAppAux l acc).1 k = lookupD acc.1 k := by
  induction l with
  | nil => intro acc k _ _; rfl
  | cons e tl ih =>
    intro acc k hname halias
    obtain ⟨key, val⟩ := e
    have hkey : key ≠ k := hname (key, val) (List.mem_cons_self _ _)
    have ihres := ih (apptainerStep acc key val) k
      (fun p hp => hname p (List.mem_cons_of_mem _ hp))
      (fun p hp => halias p (List.mem_cons_of_mem _ hp))
    rw [show sortAppAux ((key, val) :: tl) acc = sortAppAux tl (apptainerStep acc key val)
      from rfl, ihres]
    unfold apptainerStep
    split
    · exact lookupD_upsert_ne acc.1 key (stringifyVal val) hkey.symm
    · split
      · split
        · exact lookupD_upsert_ne acc.1 _ (stringifyVal val)
            (Ne.symm (halias (key, val) (List.mem_cons_self _ _) (by assumption)))
        · rfl
      · rfl

/-- Same freezing property for the ngpb loop with the "ngpb_" alias rule. -/
theorem sortNgpbAux_lookup_frozen (l : Kwargs) :
    ∀ acc : ArgsDict × List String, ∀ k : String,
      (∀ p ∈ l, (p : String × PyVal).1 ≠ k) →
      (∀ p ∈ l, strStartsWith (p : String × PyVal).1 "ngpb_" = true →
        strReplace p.1 "ngpb_" "" ≠ k) →
      lookupD (sortNgpbAux l acc).1 k = lookupD acc.1 k := by
  induction l with
  | nil => intro acc k _ _; rfl
  | cons e tl ih =>
    intro acc k hname halias
    obtain ⟨key, val⟩ := e
    have hkey : key ≠ k := hname (key, val) (List.mem_cons_self _ _)
    have ihres := ih (ngpbStep acc key val) k
      (fun p hp => hname p (List.mem_cons_of_mem _ hp))
      (fun p hp => halias p (List.mem_cons_of_mem _ hp))
    rw [show sortNgpbAux ((key, val) :: tl) acc = sortNgpbAux tl (ngpbStep acc key val)
      from rfl, ihres]
    unfold ngpbStep
    split
    · exact lookupD_upsert_ne acc.1 key (stringifyVal val) hkey.symm
    · split
      · split
        · exact lookupD_upsert_ne acc.1 _ (stringifyVal val)
            (Ne.symm (halias (key, val) (List.mem_cons_self _ _) (by assumption)))
        · rfl
      · split
        · rfl
        · rfl

/-- The value tracked under an exactly allow-listed name `k`: if `(k, v)` is
an entry, no other entry shares the name, and no prefixed alias cleans to
`k`, then the Apptainer output stores `k ↦ stringify v`. -/
theorem sortAppAux_lookup_value (l : Kwargs) :
    ∀ acc : ArgsDict × List String, ∀ k v, (k, v) ∈ l →
      (l.map Prod.fst).Nodup →
      (∀ p ∈ l, strStartsWith (p : String × PyVal).1 "apptainer_" = true →
        strReplace p.1 "apptainer_" "" ≠ k) →
      APPTAINER_KNOWN_ARGS.contains k = true →
      lookupD (sortAppAux l acc).1 k = some (stringifyVal v) := by
  induction l with
  | nil => intro acc k v hmem; exact absurd hmem (List.not_mem_nil _)
  | cons e tl ih =>
    intro acc k v hmem hnd halias hk
    obtain ⟨key, val⟩ := e
    simp only [List.map_cons, List.nodup_cons] at hnd
    rcases List.mem_cons.mp hmem with heq | htl
    · obtain ⟨rfl, rfl⟩ := Prod.mk.injEq .. ▸ heq
      rw [show sortAppAux ((k, v) :: tl) acc = sortAppAux tl (apptainerStep acc k v)
        from rfl]
      rw [sortAppAux_lookup_frozen tl (apptainerStep acc k v) k
        (fun p hp hpk => hnd.1 (hpk ▸ List.mem_map_of_mem Prod.fst hp))
        (fun p hp hsw => halias p (List.mem_cons_of_mem _ hp) hsw)]
      unfold apptainerStep
      rw [hk]
      simp only [if_true]
      exact lookupD_upsert_self acc.1 k (stringifyVal v)
    · exact ih (apptainerStep acc key val) k v htl hnd.2
        (fun p hp => halias p (List.mem_cons_of_mem _ hp)) hk

/-- The value tracked under an exactly allow-listed ngpb name. -/
theorem sortNgpbAux_lookup_value (l : Kwargs) :
    ∀ acc : ArgsDict × List String, ∀ k v, (k, v) ∈ l →
      (l.map Prod.fst).Nodup →
      (∀ p ∈ l, strStartsWith (p : String × PyVal).1 "ngpb_" = true →
        strReplace p.1 "ngpb_" "" ≠ k) →
      NGPB_KNOWN_ARGS.contains k = true →
      lookupD (sortNgpbAux l acc).1 k = some (stringifyVal v) := by
  induction l with
  | nil => intro acc k v hmem; exact absurd hmem (List.not_mem_nil _)
  | cons e tl ih =>
    intro acc k v hmem hnd halias hk
    obtain ⟨key, val⟩ := e
    simp only [List.map_cons, List.nodup_cons] at hnd
    rcases List.mem_cons.mp hmem with heq | htl
    · obtain ⟨rfl, rfl⟩ := Prod.mk.injEq .. ▸ heq
      rw [show sortNgpbAux ((k, v) :: tl) acc = sortNgpbAux tl (ngpbStep acc k v)
        from rfl]
      rw [sortNgpbAux_lookup_frozen tl (ngpbStep acc k v) k
        (fun p hp hpk => hnd.1 (hpk ▸ List.mem_map_of_mem Prod.fst hp))
        (fun p hp hsw => halias p (List.mem_cons_of_mem _ hp) hsw)]
      unfold ngpbStep
      rw [hk]
      simp only [if_true]
      exact lookupD_upsert_self acc.1 k (stringifyVal v)
    · exact ih (ngpbStep acc key val) k v htl hnd.2
        (fun p hp => halias p (List.mem_cons_of_mem _ hp)) hk

/-! ### Claim theorems -/

/-- C7: for every executor whose binary location is still unresolved,
`build_command` fails with the "binary unresolved" error ("Apptainer path not
found. Call validate_apptainer_availability() first.") and produces no
command vector. -/
theorem C7_build_requires_resolved_binary (st : Executor)
    (h : st.apptainer_path = Option.none) (apptainer_args ngpb_args : ArgsDict) :
    build_command st apptainer_args ngpb_args = Except.error buildNoBinaryMsg ∧
    ∀ cmd, build_command st apptainer_args ngpb_args ≠ Except.ok cmd := by
  have hb : build_command st apptainer_args ngpb_args = Except.error buildNoBinaryMsg := by
    simp [build_command, h]
  exact ⟨hb, fun cmd hc => by rw [hb] at hc; exact Except.noConfusion hc⟩

/-- Witness for C7 at a concrete unresolved executor. -/
theorem C7_build_requires_resolved_binary_witness :
    ({ sampleExecutor with apptainer_path := Option.none } : Executor).apptainer_path =
      Option.none ∧
    (build_command { sampleExecutor with apptainer_path := Option.none } [] [] =
        Except.error buildNoBinaryMsg ∧
      ∀ cmd, build_command { sampleExecutor with apptainer_path := Option.none } [] [] ≠
        Except.ok cmd) :=
  ⟨rfl, C7_build_requires_resolved_binary _ rfl [] []⟩

/-- C3: an executor with process count 2, working directory `D`, no timeout
and a resolved binary turns the classified options
`{bind: "/tmp:/tmp", prmfile: "config.prm"}` into exactly the expected
vector. -/
theorem C3_scenario_vector (bin D_abs D sif sif_abs : String) :
    build_command
      { sif_path := sif, sif_abs := sif_abs, n_proc := 2, workdir := D,
        workdir_abs := D_abs, env := [], timeout := Option.none,
        log_copy_dir := Option.none, apptainer_path := some bin }
      (sort_apptainer_kwargs
        [("bind", PyVal.str "/tmp:/tmp"), ("prmfile", PyVal.str "config.prm")]).1
      (sort_ngpb_kwargs
        [("bind", PyVal.str "/tmp:/tmp"), ("prmfile", PyVal.str "config.prm")]).1 =
    Except.ok [bin, "exec", "--pwd", "/App", "--bind", D_abs ++ ":/App",
      "--bind", "/tmp:/tmp", sif_abs, "mpirun", "-np", "2", "ngpb",
      "--prmfile", "config.prm"] := by
  rw [show (sort_apptainer_kwargs
        [("bind", PyVal.str "/tmp:/tmp"), ("prmfile", PyVal.str "config.prm")]).1 =
      [("bind", some "/tmp:/tmp")] from rfl]
  rw [show (sort_ngpb_kwargs
        [("bind", PyVal.str "/tmp:/tmp"), ("prmfile", PyVal.str "config.prm")]).1 =
      [("prmfile", some "config.prm")] from rfl]
  simp only [build_command, renderArgs]
  rfl

/-- C4: with the binary resolved, the built vector has the binary at position
0; the "ngpb" token immediately precedes the rendered program options (hence
the first program-option token when there is one) and is the final token when
the program mapping is empty; and with no options at all the full fixed
scaffolding is still produced. -/
theorem C4_command_scaffolding (st : Executor) (bin : String)
    (hbin : st.apptainer_path = some bin) (apptainer_args ngpb_args : ArgsDict) :
    ∃ cmd, build_command st apptainer_args ngpb_args = Except.ok cmd ∧
      cmd.head? = some bin ∧
      (∃ p, cmd = p ++ "ngpb" :: renderArgs ngpb_args) ∧
      (ngpb_args = [] → cmd.getLast? = some "ngpb") ∧
      (∀ k v rest, ngpb_args = (k, v) :: rest →
        (renderArgs ngpb_args).head? = some ("--" ++ k)) ∧
      (apptainer_args = [] → ngpb_args = [] →
        cmd = [bin, "exec", "--pwd", "/App", "--bind", st.workdir_abs ++ ":/App",
          st.sif_abs, "mpirun", "-np", toString st.n_proc, "ngpb"]) := by
  refine ⟨[bin, "exec", "--pwd", "/App", "--bind", st.workdir_abs ++ ":/App"] ++
      renderArgs apptainer_args ++
      [st.sif_abs, "mpirun", "-np", toString st.n_proc, "ngpb"] ++
      renderArgs ngpb_args,
    by simp [build_command, hbin], rfl, ?_, ?_, ?_, ?_⟩
  · refine ⟨[bin, "exec", "--pwd", "/App", "--bind", st.workdir_abs ++ ":/App"] ++
      renderArgs apptainer_args ++ [st.sif_abs, "mpirun", "-np", toString st.n_proc], ?_⟩
    simp
  · intro h
    subst h
    simp only [renderArgs, List.append_nil]
    rw [show ([st.sif_abs, "mpirun", "-np", toString st.n_proc, "ngpb"] : List String) =
      [st.sif_abs, "mpirun", "-np", toString st.n_proc] ++ ["ngpb"] from rfl]
    simp only [← List.append_assoc]
    exact List.getLast?_concat _
  · intro k v rest h
    subst h
    cases v with
    | none => rfl
    | some s => rfl
  · intro h1 h2
    subst h1; subst h2
    simp [renderArgs]

/-- Witness for C4 at a concrete resolved executor with empty mappings. -/
theorem C4_command_scaffolding_witness :
    sampleExecutor.apptainer_path = some "/usr/bin/apptainer" ∧
    (∃ cmd, build_command sampleExecutor [] [] = Except.ok cmd ∧
      cmd.head? = some "/usr/bin/apptainer" ∧
      (∃ p, cmd = p ++ "ngpb" :: renderArgs []) ∧
      (([] : ArgsDict) = [] → cmd.getLast? = some "ngpb") ∧
      (∀ k v rest, ([] : ArgsDict) = (k, v) :: rest →
        (renderArgs []).head? = some ("--" ++ k)) ∧
      (([] : ArgsDict) = [] → ([] : ArgsDict) = [] →
        cmd = ["/usr/bin/apptainer", "exec", "--pwd", "/App", "--bind",
          sampleExecutor.workdir_abs ++ ":/App", sampleExecutor.sif_abs, "mpirun",
          "-np", toString sampleExecutor.n_proc, "ngpb"])) :=
  ⟨rfl, C4_command_scaffolding sampleExecutor "/usr/bin/apptainer" rfl [] []⟩

/-- C10: only a `None` value renders as a bare `--name` token; any other
value — including `False`, `0` and the empty string — is stringified and
appended as its own following token, so an empty-string value puts an
empty-string token into the built command vector. -/
theorem C10_only_none_is_bare (k : String) (v : PyVal) (rest : ArgsDict) :
    (v = PyVal.none →
      renderArgs ((k, stringifyVal v) :: rest) = ("--" ++ k) :: renderArgs rest) ∧
    (v ≠ PyVal.none →
      renderArgs ((k, stringifyVal v) :: rest) =
        ("--" ++ k) :: pyStr v :: renderArgs rest) ∧
    pyStr (PyVal.str "") = "" ∧ pyStr (PyVal.bool false) = "False" ∧
    pyStr (PyVal.int 0) = "0" ∧
    (∀ st : Executor, ∀ bin, st.apptainer_path = some bin →
      build_command st [] [("prmfile", stringifyVal (PyVal.str ""))] =
        Except.ok [bin, "exec", "--pwd", "/App", "--bind", st.workdir_abs ++ ":/App",
          st.sif_abs, "mpirun", "-np", toString st.n_proc, "ngpb", "--prmfile", ""]) := by
  refine ⟨?_, ?_, rfl, rfl, rfl, ?_⟩
  · intro h; subst h; rfl
  · intro h
    rw [show stringifyVal v = some (pyStr v) from by simp [stringifyVal, h]]
    rfl
  · intro st bin hbin
    simp [build_command, hbin, renderArgs, stringifyVal, pyStr]

/-- Witness for C10: the empty-string program option value renders as an
empty following token. -/
theorem C10_only_none_is_bare_witness :
    (PyVal.str "" ≠ PyVal.none) ∧
    renderArgs [("prmfile", stringifyVal (PyVal.str ""))] =
      ("--" ++ "prmfile") :: pyStr (PyVal.str "") :: renderArgs [] :=
  ⟨by decide, (C10_only_none_is_bare "prmfile" (PyVal.str "") []).2.1 (by decide)⟩

theorem embeddedIn_head (p t : String) : embeddedIn p (p ++ t) :=
  ⟨"", t, (String.empty_append _).symm⟩

theorem embeddedIn_concat (x p : String) : embeddedIn p (x ++ p) :=
  ⟨x, "", by rw [String.append_empty]⟩

theorem embeddedIn_step (s : String) {p t : String} (h : embeddedIn p t) :
    embeddedIn p (s ++ t) := by
  obtain ⟨x, y, rfl⟩ := h
  exact ⟨s ++ x, y, (String.append_assoc s x _).symm⟩

theorem embeddedIn_append_right {p s : String} (t : String) (h : embeddedIn p s) :
    embeddedIn p (s ++ t) := by
  obtain ⟨x, y, rfl⟩ := h
  exact ⟨x, y ++ t, by simp [String.append_assoc]⟩

/-- Everything embedded in the inner exception message is embedded in the
wrapped "Unexpected error during Apptainer execution" message. -/
theorem embeddedIn_unexpected {p e : String} (cmd : List String) (st : Executor)
    (h : embeddedIn p e) : embeddedIn p (unexpectedErrMsg e cmd st) :=
  embeddedIn_append_right _ (embeddedIn_append_right _ (embeddedIn_append_right _
    (embeddedIn_append_right _ (embeddedIn_append_right _ (embeddedIn_append_right _
      (embeddedIn_step _ h))))))

/-- C1: when the spawned subprocess completes with a non-zero exit status (no
timeout), `execute_command` fails, and the raised error message embeds the
"execution failed" phrase with the exit status, the space-joined command
string, both captured streams, and the primary log path.  (In the source the
inner "Apptainer execution failed" `RuntimeError` is re-wrapped by the
blanket `except Exception` handler, so the final message carries the whole
inner message, and with it all the listed components.) -/
theorem C1_nonzero_exit_fails_with_context (st : Executor) (bin : String)
    (kwargs : Kwargs) (rc : Int) (out err : String) (pOk cOk aOk : Bool)
    (hbin : st.apptainer_path = some bin) (hrc : rc ≠ 0) :
    ∃ cmd msg,
      build_command st (sort_apptainer_kwargs kwargs).1 (sort_ngpb_kwargs kwargs).1 =
        Except.ok cmd ∧
      (execute_command st kwargs (SpawnOutcome.completed rc out err) pOk cOk aOk).1 =
        Except.error msg ∧
      embeddedIn "Apptainer execution failed with return code " msg ∧
      embeddedIn (toString rc) msg ∧
      embeddedIn (String.intercalate " " cmd) msg ∧
      embeddedIn err msg ∧
      embeddedIn out msg ∧
      embeddedIn (st.workdir ++ "/apptainer_execution.log") msg := by
  have hcmd : build_command st (sort_apptainer_kwargs kwargs).1 (sort_ngpb_kwargs kwargs).1 =
      Except.ok (builtCmd st bin kwargs) := by
    simp only [build_command, builtCmd, hbin]
  refine ⟨builtCmd st bin kwargs, nonzeroExitMsg st bin kwargs rc out err,
    hcmd, ?_, ?_, ?_, ?_, ?_, ?_, ?_⟩
  · simp only [execute_command, hbin, hcmd, setup_logging, nonzeroExitMsg]
    rw [if_pos hrc]
  · exact embeddedIn_unexpected _ _
      (embeddedIn_append_right _ (embeddedIn_append_right _ (embeddedIn_append_right _
        (embeddedIn_append_right _ (embeddedIn_append_right _ (embeddedIn_append_right _
          (embeddedIn_append_right _ (embeddedIn_append_right _
            (embeddedIn_head _ _)))))))))
  · exact embeddedIn_unexpected _ _
      (embeddedIn_append_right _ (embeddedIn_append_right _ (embeddedIn_append_right _
        (embeddedIn_append_right _ (embeddedIn_append_right _ (embeddedIn_append_right _
          (embeddedIn_append_right _ (embeddedIn_append_right _
            (embeddedIn_concat _ _)))))))))
  · exact embeddedIn_unexpected _ _
      (embeddedIn_append_right _ (embeddedIn_append_right _ (embeddedIn_append_right _
        (embeddedIn_append_right _ (embeddedIn_append_right _ (embeddedIn_append_right _
          (embeddedIn_concat _ _)))))))
  · exact embeddedIn_unexpected _ _
      (embeddedIn_append_right _ (embeddedIn_append_right _ (embeddedIn_append_right _
        (embeddedIn_append_right _ (embeddedIn_concat _ _)))))
  · exact embeddedIn_unexpected _ _
      (embeddedIn_append_right _ (embeddedIn_append_right _ (embeddedIn_concat _ _)))
  · exact embeddedIn_unexpected _ _ (embeddedIn_concat _ _)

/-- Witness for C1 at a concrete run: exit status 1, stdout "O", stderr "E". -/
theorem C1_nonzero_exit_fails_with_context_witness :
    sampleExecutor.apptainer_path = some "/usr/bin/apptainer" ∧ (1 : Int) ≠ 0 ∧
    (∃ cmd msg, build_command sampleExecutor
        (sort_apptainer_kwargs [("prmfile", PyVal.str "c.prm")]).1
        (sort_ngpb_kwargs [("prmfile", PyVal.str "c.prm")]).1 = Except.ok cmd ∧
      (execute_command sampleExecutor [("prmfile", PyVal.str "c.prm")]
          (SpawnOutcome.completed 1 "O" "E") true true true).1 = Except.error msg ∧
      embeddedIn "Apptainer execution failed with return code " msg ∧
      embeddedIn (toString (1 : Int)) msg ∧
      embeddedIn (String.intercalate " " cmd) msg ∧
      embeddedIn "E" msg ∧ embeddedIn "O" msg ∧
      embeddedIn (sampleExecutor.workdir ++ "/apptainer_execution.log") msg) :=
  ⟨rfl, by decide,
    C1_nonzero_exit_fails_with_context sampleExecutor "/usr/bin/apptainer"
      [("prmfile", PyVal.str "c.prm")] 1 "O" "E" true true true rfl (by decide)⟩

/-- C8: when the subprocess completes, failures of the primary or secondary
log write never change the outcome of `execute_command` — the first component
is identical to the run in which both writes succeed; with the binary
resolved a zero exit still returns the process result and a non-zero exit
still raises the wrapped execution-failure error. -/
theorem C8_log_write_failure_no_outcome_change (st : Executor) (kwargs : Kwargs)
    (rc : Int) (out err : String) (pOk cOk aOk : Bool) :
    ((execute_command st kwargs (SpawnOutcome.completed rc out err) pOk cOk aOk).1 =
      (execute_command st kwargs (SpawnOutcome.completed rc out err) true true aOk).1) ∧
    (∀ bin, st.apptainer_path = some bin → rc = 0 →
      (execute_command st kwargs (SpawnOutcome.completed rc out err) pOk cOk aOk).1 =
        Except.ok ⟨rc, out, err⟩) ∧
    (∀ bin, st.apptainer_path = some bin → rc ≠ 0 →
      (execute_command st kwargs (SpawnOutcome.completed rc out err) pOk cOk aOk).1 =
        Except.error (nonzeroExitMsg st bin kwargs rc out err)) := by
  refine ⟨?_, ?_, ?_⟩
  · cases hb : st.apptainer_path with
    | none => simp [execute_command, hb]
    | some bin =>
      simp only [execute_command, hb, build_command, setup_logging]
      by_cases hrc : rc ≠ 0
      · rw [if_pos hrc, if_pos hrc]
      · rw [if_neg hrc, if_neg hrc]
  · intro bin hb hrc
    simp only [execute_command, hb, build_command, setup_logging]
    rw [if_neg (by simp [hrc])]
  · intro bin hb hrc
    simp only [execute_command, hb, build_command, setup_logging, nonzeroExitMsg,
      builtCmd]
    rw [if_pos hrc]

/-- Witness for C8: with both writes failing, a zero-exit run still returns
the process result, identical to the run with successful writes. -/
theorem C8_log_write_failure_no_outcome_change_witness :
    ((execute_command sampleExecutor [] (SpawnOutcome.completed 0 "ok" "") false false
        true).1 =
      (execute_command sampleExecutor [] (SpawnOutcome.completed 0 "ok" "") true true
        true).1) ∧
    (execute_command sampleExecutor [] (SpawnOutcome.completed 0 "ok" "") false false
        true).1 = Except.ok ⟨0, "ok", ""⟩ :=
  ⟨(C8_log_write_failure_no_outcome_change sampleExecutor [] 0 "ok" "" false false
      true).1,
    (C8_log_write_failure_no_outcome_change sampleExecutor [] 0 "ok" "" false false
      true).2.1 "/usr/bin/apptainer" rfl rfl⟩

/-- C2 counterexample: the claim reads prefix handling as stripping the
leading prefix once, but the code uses `str.replace`, which removes every
occurrence.  For the name "apptainer_apptainer_bind" the leading-prefix
candidate "apptainer_bind" is not allow-listed, so by the claim the original
name should land in the unrecognized list — instead the code cleans the name
to "bind" and accepts it, leaving the unrecognized list empty. -/
theorem C2_counterexample :
    "apptainer_apptainer_bind" = "apptainer_" ++ "apptainer_bind" ∧
    strStartsWith "apptainer_apptainer_bind" "apptainer_" = true ∧
    APPTAINER_KNOWN_ARGS.contains "apptainer_bind" = false ∧
    sort_apptainer_kwargs [("apptainer_apptainer_bind", PyVal.str "x")] =
      ([("bind", some "x")], []) ∧
    "apptainer_apptainer_bind" ∉
      (sort_apptainer_kwargs [("apptainer_apptainer_bind", PyVal.str "x")]).2 := by
  refine ⟨by decide, by decide, by decide, by decide, by decide⟩

/-- C2 (amended): for every option name beginning with a destination's
literal prefix, the candidate is the name with *every* occurrence of the
prefix removed (Python `str.replace` semantics, not a single leading strip):
if that cleaned candidate is in the destination's allow-list it appears among
the destination's output keys, and if it is not, the original unstripped name
appears in that destination's unrecognized list. -/
theorem C2_prefixed_names_cleaned (kwargs : Kwargs) (k : String) (v : PyVal)
    (hmem : (k, v) ∈ kwargs) :
    (strStartsWith k "apptainer_" = true →
      (APPTAINER_KNOWN_ARGS.contains (strReplace k "apptainer_" "") = true →
        strReplace k "apptainer_" "" ∈ keysOf (sort_apptainer_kwargs kwargs).1) ∧
      (APPTAINER_KNOWN_ARGS.contains (strReplace k "apptainer_" "") = false →
        k ∈ (sort_apptainer_kwargs kwargs).2)) ∧
    (strStartsWith k "ngpb_" = true →
      (NGPB_KNOWN_ARGS.contains (strReplace k "ngpb_" "") = true →
        strReplace k "ngpb_" "" ∈ keysOf (sort_ngpb_kwargs kwargs).1) ∧
      (NGPB_KNOWN_ARGS.contains (strReplace k "ngpb_" "") = false →
        k ∈ (sort_ngpb_kwargs kwargs).2)) := by
  constructor
  · intro hsw
    exact ⟨fun hcl => sortAppAux_accept kwargs ([], []) k v hmem hsw hcl,
      fun hcl => sortAppAux_reject kwargs ([], []) k v hmem hsw hcl⟩
  · intro hsw
    exact ⟨fun hcl => sortNgpbAux_accept kwargs ([], []) k v hmem hsw hcl,
      fun hcl => sortNgpbAux_reject kwargs ([], []) k v hmem hsw hcl⟩

/-- Witness for C2 (amended): "apptainer_bind" cleans to the allow-listed
"bind" and is accepted under it. -/
theorem C2_prefixed_names_cleaned_witness :
    ("apptainer_bind", PyVal.str "x") ∈
      ([("apptainer_bind", PyVal.str "x")] : Kwargs) ∧
    strStartsWith "apptainer_bind" "apptainer_" = true ∧
    "bind" ∈ keysOf (sort_apptainer_kwargs [("apptainer_bind", PyVal.str "x")]).1 :=
  ⟨by decide, by decide, by
    have h := (C2_prefixed_names_cleaned [("apptainer_bind", PyVal.str "x")]
      "apptainer_bind" (PyVal.str "x") (by decide)).1 (by decide)
    exact h.1 (by decide)⟩

/-- C5 counterexample: the claim promises that an allow-listed name
round-trips with *its* value, but a later "apptainer_"-prefixed alias of the
same name overwrites the stored value: with input
`{bind: "a", apptainer_bind: "b"}` the output maps `bind` to "b", not to the
stringification of its own input value "a". -/
theorem C5_counterexample :
    APPTAINER_KNOWN_ARGS.contains "bind" = true ∧
    ("bind", PyVal.str "a") ∈
      ([("bind", PyVal.str "a"), ("apptainer_bind", PyVal.str "b")] : Kwargs) ∧
    lookupD (sort_apptainer_kwargs
      [("bind", PyVal.str "a"), ("apptainer_bind", PyVal.str "b")]).1 "bind" =
      some (some "b") ∧
    some (some "b") ≠ some (stringifyVal (PyVal.str "a")) := by
  refine ⟨by decide, by decide, by decide, by decide⟩

/-- C5 (amended): an input name present in a destination's allow-list never
appears in the other destination's output mapping; and it appears in its own
destination's output with its value stringified provided the input names are
distinct and no prefixed entry cleans to the same name (otherwise the last
entry cleaning to that name wins). -/
theorem C5_allowlisted_names (kwargs : Kwargs) (k : String) (v : PyVal)
    (hmem : (k, v) ∈ kwargs) (hnd : (kwargs.map Prod.fst).Nodup) :
    (APPTAINER_KNOWN_ARGS.contains k = true →
      k ∈ keysOf (sort_apptainer_kwargs kwargs).1) ∧
    (APPTAINER_KNOWN_ARGS.contains k = true →
      (∀ p ∈ kwargs, strStartsWith (p : String × PyVal).1 "apptainer_" = true →
          strReplace p.1 "apptainer_" "" ≠ k) →
      lookupD (sort_apptainer_kwargs kwargs).1 k = some (stringifyVal v)) ∧
    (APPTAINER_KNOWN_ARGS.contains k = true →
      lookupD (sort_ngpb_kwargs kwargs).1 k = Option.none) ∧
    (NGPB_KNOWN_ARGS.contains k = true →
      k ∈ keysOf (sort_ngpb_kwargs kwargs).1) ∧
    (NGPB_KNOWN_ARGS.contains k = true →
      (∀ p ∈ kwargs, strStartsWith (p : String × PyVal).1 "ngpb_" = true →
          strReplace p.1 "ngpb_" "" ≠ k) →
      lookupD (sort_ngpb_kwargs kwargs).1 k = some (stringifyVal v)) ∧
    (NGPB_KNOWN_ARGS.contains k = true →
      lookupD (sort_apptainer_kwargs kwargs).1 k = Option.none) := by
  refine ⟨?_, ?_, ?_, ?_, ?_, ?_⟩
  · intro hk
    exact sortAppAux_exact_mem kwargs ([], []) k v hmem hk
  · intro hk halias
    exact sortAppAux_lookup_value kwargs ([], []) k v hmem hnd halias hk
  · intro hk
    refine lookupD_eq_none fun hm => ?_
    have hN := sortNgpbAux_keys_sub kwargs ([], []) (by simp [keysOf]) k hm
    rw [(apptainer_mem_facts hk).2.2] at hN
    exact Bool.noConfusion hN
  · intro hk
    exact sortNgpbAux_exact_mem kwargs ([], []) k v hmem hk
  · intro hk halias
    exact sortNgpbAux_lookup_value kwargs ([], []) k v hmem hnd halias hk
  · intro hk
    refine lookupD_eq_none fun hm => ?_
    have hA := sortAppAux_keys_sub kwargs ([], []) (by simp [keysOf]) k hm
    rw [(ngpb_mem_facts hk).2.2] at hA
    exact Bool.noConfusion hA

/-- Witness for C5 (amended): on `{bind: "a", prmfile: "b"}` the name "bind"
appears in the Apptainer output, round-trips with its value, and is absent
from the ngpb output; and on the aliased input `{bind: "a", apptainer_bind:
"b"}` the name "bind" still appears in the Apptainer output (with the
overwritten value), membership being unconditional. -/
theorem C5_allowlisted_names_witness :
    (("bind", PyVal.str "a") ∈
      ([("bind", PyVal.str "a"), ("prmfile", PyVal.str "b")] : Kwargs)) ∧
    (([("bind", PyVal.str "a"), ("prmfile", PyVal.str "b")] : Kwargs).map
      Prod.fst).Nodup ∧
    "bind" ∈ keysOf (sort_apptainer_kwargs
      [("bind", PyVal.str "a"), ("prmfile", PyVal.str "b")]).1 ∧
    lookupD (sort_apptainer_kwargs
      [("bind", PyVal.str "a"), ("prmfile", PyVal.str "b")]).1 "bind" =
      some (some "a") ∧
    lookupD (sort_ngpb_kwargs
      [("bind", PyVal.str "a"), ("prmfile", PyVal.str "b")]).1 "bind" =
      Option.none ∧
    "bind" ∈ keysOf (sort_apptainer_kwargs
      [("bind", PyVal.str "a"), ("apptainer_bind", PyVal.str "b")]).1 := by
  have h := C5_allowlisted_names
    [("bind", PyVal.str "a"), ("prmfile", PyVal.str "b")] "bind" (PyVal.str "a")
    (by decide) (by simp)
  have h2 := C5_allowlisted_names
    [("bind", PyVal.str "a"), ("apptainer_bind", PyVal.str "b")] "bind"
    (PyVal.str "a") (by decide) (by simp)
  exact ⟨by decide, by simp, h.1 (by decide), h.2.1 (by decide) (by decide),
    h.2.2.1 (by decide), h2.1 (by decide)⟩

/-- C6: the runtime-classified and program-classified output mappings have
disjoint key sets for every input mapping — no option name is duplicated into
both destinations. -/
theorem C6_outputs_disjoint (kwargs : Kwargs) :
    (keysOf (sort_apptainer_kwargs kwargs).1).all
      (fun k => !((keysOf (sort_ngpb_kwargs kwargs).1).contains k)) = true := by
  refine List.all_eq_true.mpr fun x hx => ?_
  have hA : APPTAINER_KNOWN_ARGS.contains x = true :=
    sortAppAux_keys_sub kwargs ([], []) (by simp [keysOf]) x hx
  cases hc : (keysOf (sort_ngpb_kwargs kwargs).1).contains x with
  | false => rfl
  | true =>
    have hm : x ∈ keysOf (sort_ngpb_kwargs kwargs).1 := contains_iff_memS.mp hc
    have hN := sortNgpbAux_keys_sub kwargs ([], []) (by simp [keysOf]) x hm
    rw [(apptainer_mem_facts hA).2.2] at hN
    exact Bool.noConfusion hN

/-- C9: a name that exactly matches the Apptainer allow-list is silently
dropped by the program-side sort: it appears neither among the ngpb output
keys nor in the ngpb unrecognized list. -/
theorem C9_cross_namespace_names_dropped (kwargs : Kwargs) (k : String)
    (hk : APPTAINER_KNOWN_ARGS.contains k = true) :
    k ∉ keysOf (sort_ngpb_kwargs kwargs).1 ∧ k ∉ (sort_ngpb_kwargs kwargs).2 := by
  constructor
  · intro hm
    have hN := sortNgpbAux_keys_sub kwargs ([], []) (by simp [keysOf]) k hm
    rw [(apptainer_mem_facts hk).2.2] at hN
    exact Bool.noConfusion hN
  · exact sortNgpbAux_skip_apptainer kwargs ([], []) k hk (by simp)

/-- Witness for C9 on `{bind: "x", other: "y"}`: the Apptainer name "bind" is
in neither ngpb output. -/
theorem C9_cross_namespace_names_dropped_witness :
    APPTAINER_KNOWN_ARGS.contains "bind" = true ∧
    ("bind" ∉ keysOf (sort_ngpb_kwargs
        [("bind", PyVal.str "x"), ("other", PyVal.str "y")]).1 ∧
      "bind" ∉ (sort_ngpb_kwargs
        [("bind", PyVal.str "x"), ("other", PyVal.str "y")]).2) :=
  ⟨by decide,
    C9_cross_namespace_names_dropped
      [("bind", PyVal.str "x"), ("other", PyVal.str "y")] "bind" (by decide)⟩
